import Mathlib

/-!
Verification development for the werf cleanup subsystem.

The definitions below are a shallow embedding of the Go sources:
* the repo stages storage and tag codec (`RepoStagesStorage` and helpers),
* the images cleanup engine (`imagesCleanupManager` and helpers),
* the stages purge manager loops.

Machine integers (Go int64) are modelled as `Nat` / `Int` with explicit
bounds where relevant.  Registry / Kubernetes / git effects are modelled by
passing their observable results (tag lists, probe output, commit-existence
oracles) as explicit parameters.  Functions of the repository that are not
part of the given sources are modelled from the specification and marked
with a doc comment starting with "Modelled from the spec".
-/

namespace Werf

/-! ### Decimal rendering and parsing of unique ids

Embeds Go's `fmt.Sprintf("%d", uniqueID)` (decimal rendering) and the parse
used by `image.ParseUniqueIDAsTimestamp`. -/

/-- The decimal digit character for a value `d < 10` (codepoint 48 + d). -/
def digitCharOf (d : Nat) : Char := Char.ofNat (48 + d)

/-- Decimal rendering of a natural number, most significant digit first.
Embeds Go's `%d` formatting of a (nonnegative) int64. -/
def natToDecimalChars (n : Nat) : List Char :=
  if n < 10 then [digitCharOf n]
  else natToDecimalChars (n / 10) ++ [digitCharOf (n % 10)]
decreasing_by exact Nat.div_lt_self (by omega) (by omega)

/-- Value of a decimal digit character, `none` for non-digits. -/
def decDigitVal (c : Char) : Option Nat :=
  if 48 ≤ c.toNat ∧ c.toNat ≤ 57 then some (c.toNat - 48) else none

/-- Accumulating decimal parser over a character list. -/
def parseDecAux : List Char → Nat → Option Nat
  | [], acc => some acc
  | c :: cs, acc =>
    match decDigitVal c with
    | some d => parseDecAux cs (acc * 10 + d)
    | none => none

/-- Parse a nonempty all-digit character list as a natural number. -/
def parseDecimalChars : List Char → Option Nat
  | [] => none
  | c :: cs => parseDecAux (c :: cs) 0

/-- Modelled from the spec: `image.ParseUniqueIDAsTimestamp` is not under
the given sources.  Per the spec, a stage tag's unique id is "a millisecond
timestamp encoded in decimal" that is a "positive int64"; the parse accepts
a nonempty decimal-digit string whose value fits in an int64 and rejects
anything else. -/
def ParseUniqueIDAsTimestamp (s : List Char) : Option Nat :=
  match parseDecimalChars s with
  | none => none
  | some v => if v < 2 ^ 63 then some v else none

/-! ### The stage tag codec (src/unnamed/part_001) -/

/-- Split a character list at the first dash, embedding
`strings.SplitN(tag, "-", 2)`: `none` when no dash occurs (Go returns a
single part), otherwise the parts before and after the first dash. -/
def splitN2OnDash : List Char → Option (List Char × List Char)
  | [] => none
  | c :: cs =>
    if c = '-' then some ([], cs)
    else (splitN2OnDash cs).map (fun p => (c :: p.1, p.2))

/-- Embeds `getSignatureAndUniqueIDFromRepoStageImageTag`
(src/unnamed/part_001, lines 87-99): split the tag on the first dash and
parse the remainder as a unique-id timestamp; any failure is an
"unexpected tag format" error, modelled as `none`. -/
def getSignatureAndUniqueIDFromRepoStageImageTag (tag : String) :
    Option (String × Nat) :=
  match splitN2OnDash tag.data with
  | none => none
  | some p =>
    match ParseUniqueIDAsTimestamp p.2 with
    | none => none
    | some uid => some (String.mk p.1, uid)

/-- Embeds `RepoStagesStorage.ConstructStageImageName`
(src/unnamed/part_001, lines 131-133), the format `"%s:%s-%d"`. -/
def ConstructStageImageName (repoAddress signature : String) (uniqueID : Nat) :
    String :=
  repoAddress ++ ":" ++ signature ++ "-" ++ String.mk (natToDecimalChars uniqueID)

/-- The tag portion of `ConstructStageImageName`: `"<signature>-<uniqueID>"`. -/
def constructStageTag (signature : String) (uniqueID : Nat) : String :=
  signature ++ "-" ++ String.mk (natToDecimalChars uniqueID)

/-- Boolean string prefix test, embedding Go's `strings.HasPrefix`. -/
def startsWithStr (s p : String) : Bool := p.data.isPrefixOf s.data

/-- Embeds `RepoStagesStorage.GetAllStages` (src/unnamed/part_001, lines
135-163) with the fetched tag list passed explicitly: tags carrying the
managed-image or metadata-by-commit record tag prefixes are skipped, tags
failing the signature/unique-id parse are skipped (every parse failure is
an unexpected-tag-format error, which the loop skips), and each remaining
tag contributes one (signature, uniqueID) stage id. -/
def GetAllStages (tags : List String) : List (String × Nat) :=
  tags.filterMap (fun tag =>
    if startsWithStr tag "managed-image-" ||
        startsWithStr tag "image-metadata-by-commit-" then none
    else getSignatureAndUniqueIDFromRepoStageImageTag tag)

/-- Embeds `RepoStagesStorage.GetStagesBySignature` (src/unnamed/part_001,
lines 181-209): keep tags that start with the bare `signature` string,
decode each as a stage tag, and build the stage id from the *argument*
signature and the decoded unique id. -/
def GetStagesBySignature (tags : List String) (signature : String) :
    List (String × Nat) :=
  tags.filterMap (fun tag =>
    if !startsWithStr tag signature then none
    else
      match getSignatureAndUniqueIDFromRepoStageImageTag tag with
      | none => none
      | some p => some (signature, p.2))

/-! ### Slugging and the per-commit metadata tag (src/unnamed/part_001) -/

/-- Modelled from the spec: the `NamelessImageRecordTag` constant is not
under the given sources; the spec maps the empty image name to
"-nameless-image-". -/
def NamelessImageRecordTag : String := "-nameless-image-"

/-- Go's `strings.ReplaceAll` for a single-character pattern: every
occurrence of `c` is replaced by the string `rep`. -/
def replaceCharWith (c : Char) (rep : List Char) (s : List Char) : List Char :=
  s.flatMap (fun a => if a = c then rep else [a])

/-- Embeds `slugImageNameAsDockerImageTag` (src/unnamed/part_001, lines
470-480): replace "/" by "__slash__" and "+" by "__plus__"; the empty name
maps to the nameless record tag. -/
def slugImageNameAsDockerImageTag (imageName : String) : String :=
  let res := String.mk
    (replaceCharWith '+' "__plus__".data
      (replaceCharWith '/' "__slash__".data imageName.data))
  if imageName = "" then NamelessImageRecordTag else res

/-- The tag format `"image-metadata-by-commit-%s-%s"`
(`RepoImageMetadataByCommitRecord_TagFormat`, src/unnamed/part_001 line 79)
applied to a name slug and a commit. -/
def metadataTagFormatApply (name commit : String) : String :=
  "image-metadata-by-commit-" ++ name ++ "-" ++ commit

/-- Modelled from the spec: `slug.LimitedSlug` is not under the given
sources.  Per the spec it shrinks the name slug to the given length limit
(a Go int, possibly forced by the 128-char cap); a string within the limit
is returned unchanged, a longer one is cut down to exactly the limit. -/
def LimitedSlug (s : String) (limit : Int) : String :=
  if (s.length : Int) ≤ limit then s else String.mk (s.data.take limit.toNat)

/-- Go's `strings.ReplaceAll(s, "-", "_")`: a per-character map since both
pattern and replacement are single characters. -/
def replaceDashWithUnderscore (s : String) : String :=
  String.mk (s.data.map (fun c => if c = '-' then '_' else c))

/-- Embeds `slugImageMetadataByCommitImageRecordTag` specialized to the
repo tag format, i.e. `slugRepoImageMetadataByCommitImageRecordTag`
(src/unnamed/part_001, lines 448-468): build the tag from the slugged
name; if it exceeds 128 characters, shrink the name slug by the excess,
replace every "-" inside the shrunk slug by "_" (protecting the trailing
commit delimiter) and rebuild the tag. -/
def slugRepoImageMetadataByCommitImageRecordTag (imageName commit : String) :
    String :=
  let formattedImageName := slugImageNameAsDockerImageTag imageName
  let tag := metadataTagFormatApply formattedImageName commit
  if tag.length ≤ 128 then tag
  else
    metadataTagFormatApply
      (replaceDashWithUnderscore
        (LimitedSlug formattedImageName
          ((formattedImageName.length : Int) - ((tag.length : Int) - 128))))
      commit

/-- Embeds `makeRepoImageMetadataByCommitImageRecord`
(src/unnamed/part_001, lines 429-434). -/
def makeRepoImageMetadataByCommitImageRecord
    (repoAddress imageName commit : String) : String :=
  repoAddress ++ ":" ++ slugRepoImageMetadataByCommitImageRecordTag imageName commit

/-! ### Image infos and labels -/

/-- Registry-side information about a published image (`image.Info`):
repository, tag, label map and creation time.  The label map is optional
to model Go's distinction between a nil map and an empty one (indexing
either yields the zero value ""). -/
structure ImageInfo where
  repository : String
  tag : String
  labels : Option (List (String × String))
  createdAtMs : Int
deriving DecidableEq

/-- Label lookup distinguishing presence, embedding `v, ok := Labels[k]`. -/
def labelGet? (i : ImageInfo) (k : String) : Option String :=
  match i.labels with
  | none => none
  | some ls => ls.lookup k

/-- Label lookup with Go's zero-value default, embedding `Labels[k]`. -/
def labelDefault (i : ImageInfo) (k : String) : String := (labelGet? i k).getD ""

/-- Modelled from the spec: the label key constants of `pkg/image` are not
under the given sources; the spec names the tag-strategy label
`WerfTagStrategy`. -/
def WerfTagStrategyLabel : String := "WerfTagStrategy"

/-- Modelled from the spec: the raw meta-tag label `WerfImageTag`. -/
def WerfImageTagLabel : String := "WerfImageTag"

/-- Modelled from the spec: the content-signature label
`WerfContentSignature`. -/
def WerfContentSignatureLabel : String := "WerfContentSignature"

/-- Modelled from the spec: the `tag_strategy.GitTag` value "git-tag". -/
def GitTagStrategy : String := "git-tag"

/-- Modelled from the spec: the `tag_strategy.GitBranch` value
"git-branch". -/
def GitBranchStrategy : String := "git-branch"

/-- Modelled from the spec: the `tag_strategy.GitCommit` value
"git-commit". -/
def GitCommitStrategy : String := "git-commit"

/-- Modelled from the spec: the `tag_strategy.StagesSignature` value
"stages-signature". -/
def StagesSignatureStrategy : String := "stages-signature"

/-- The metadata record fetched by `GetImageMetadataByCommit`
(`storage.ImageMetadata`). -/
structure ImageMetadata where
  ContentSignature : String
deriving DecidableEq

/-- Embeds `RepoStagesStorage.GetImageMetadataByCommit`
(src/unnamed/part_001, lines 373-396) with the registry's
`TryGetRepoImage` passed as an oracle: a fetch error propagates; a missing
image or an image with a nil label map yields `none`; an image with a
non-nil label map yields a record holding the "ContentSignature" label
value (the zero value "" when that key is absent). -/
def GetImageMetadataByCommit
    (tryGetRepoImage : String → Except String (Option ImageInfo))
    (repoAddress imageName commit : String) :
    Except String (Option ImageMetadata) :=
  let fullImageName :=
    makeRepoImageMetadataByCommitImageRecord repoAddress imageName commit
  match tryGetRepoImage fullImageName with
  | Except.error e =>
    Except.error ("unable to get repo image " ++ fullImageName ++ ": " ++ e)
  | Except.ok none => Except.ok none
  | Except.ok (some imgInfo) =>
    match imgInfo.labels with
    | none => Except.ok none
    | some ls =>
      Except.ok (some { ContentSignature := (ls.lookup "ContentSignature").getD "" })

/-! ### The images cleanup engine (src/unnamed/part_002) -/

/-- Modelled from the spec: `exceptRepoImageList` is not under the given
sources; per the spec's use it removes the given repo images from a list
(elements are compared as values in this embedding). -/
def exceptRepoImageList (l toExcept : List ImageInfo) : List ImageInfo :=
  l.filter (fun x => decide (x ∉ toExcept))

/-- Embeds `exceptRepoImagesByWhitelist` (src/unnamed/part_002, lines
313-352) with the Kubernetes probe output (`deployedDockerImagesNames`)
passed explicitly: per image name, every repo image whose
`Repository:Tag` string occurs in the probe output moves to the excepted
map (only names with at least one match get an entry), the rest stay in
the cleanup candidates. -/
def exceptRepoImagesByWhitelist (repoImages : List (String × List ImageInfo))
    (deployed : List String) :
    List (String × List ImageInfo) × List (String × List ImageInfo) :=
  let processed := repoImages.map (fun p =>
    let matched := p.2.filter
      (fun i => decide ((i.repository ++ ":" ++ i.tag) ∈ deployed))
    let newList := p.2.filter
      (fun i => !decide ((i.repository ++ ":" ++ i.tag) ∈ deployed))
    ((p.1, newList), (p.1, matched)))
  (processed.map Prod.fst,
    (processed.map Prod.snd).filter (fun p => !p.2.isEmpty))

/-- Embeds the merge of excepted repo images into the result map at the
end of `imagesCleanupManager.run` (src/unnamed/part_002, lines 298-305). -/
def mergeExceptedRepoImages
    (result excepted : List (String × List ImageInfo)) :
    List (String × List ImageInfo) :=
  excepted.foldl
    (fun acc ne =>
      if acc.any (fun p => decide (p.1 = ne.1)) then
        acc.map (fun p => if p.1 = ne.1 then (p.1, p.2 ++ ne.2) else p)
      else acc ++ [ne])
    result

/-- The observable outcome of `imagesCleanupManager.run`:
the manager's image list after the run (`m.imageRepoImageList`), the repo
images deleted from the registry, and whether the run exited early because
no local git repository was detected. -/
structure ImagesCleanupRunOutcome where
  finalRepoImages : List (String × List ImageInfo)
  deleted : List ImageInfo
  skippedNoLocalGit : Bool
deriving DecidableEq

/-- Embeds `imagesCleanupManager.run` (src/unnamed/part_002, lines
257-311).  The fetched repo images, the Kubernetes probe output and the
per-image cleanup phase (`repoImagesGitHistoryBasedCleanup` or
`repoImagesCleanup`, which returns the kept and the deleted images of one
name's candidate list) are passed explicitly.  With no local git the run
returns right after fetching: nothing is deleted, the manager's list stays
the fetched one.  Otherwise the kube whitelist partitions candidates from
excepted images (unless `withoutKube`), the cleanup phase runs on the
candidates, and excepted images are merged back into the final result. -/
def imagesCleanupRun (localGitPresent withoutKube : Bool)
    (repoImages : List (String × List ImageInfo)) (deployed : List String)
    (cleanupPhase : List ImageInfo → List ImageInfo × List ImageInfo) :
    ImagesCleanupRunOutcome :=
  if !localGitPresent then
    { finalRepoImages := repoImages, deleted := [], skippedNoLocalGit := true }
  else
    let kube :=
      if !withoutKube then exceptRepoImagesByWhitelist repoImages deployed
      else (repoImages, [])
    let processed := kube.1.map (fun p => (p.1, cleanupPhase p.2))
    { finalRepoImages :=
        mergeExceptedRepoImages (processed.map (fun q => (q.1, q.2.1))) kube.2,
      deleted := (processed.map (fun q => q.2.2)).flatten,
      skippedNoLocalGit := false }

/-! ### Retention policies (src/unnamed/part_002, lines 807-924) -/

/-- Embeds `repoImagesCleanupByPolicyOptions` (src/unnamed/part_002, lines
869-875). -/
structure RepoImagesCleanupByPolicyOptions where
  hasLimit : Bool
  limit : Nat
  hasExpiryPeriod : Bool
  expiryPeriod : Int
  schemeName : String

/-- Embeds `ImagesCleanupPolicies` (src/unnamed/part_002, lines 164-182). -/
structure ImagesCleanupPolicies where
  gitTagStrategyHasLimit : Bool
  gitTagStrategyLimit : Nat
  gitTagStrategyHasExpiryPeriod : Bool
  gitTagStrategyExpiryPeriod : Int
  gitCommitStrategyHasLimit : Bool
  gitCommitStrategyLimit : Nat
  gitCommitStrategyHasExpiryPeriod : Bool
  gitCommitStrategyExpiryPeriod : Int
  stagesSignatureStrategyHasLimit : Bool
  stagesSignatureStrategyLimit : Nat
  stagesSignatureStrategyHasExpiryPeriod : Bool
  stagesSignatureStrategyExpiryPeriod : Int

/-- Insert an image into a list sorted ascending by creation time. -/
def insertByCreatedAt (a : ImageInfo) : List ImageInfo → List ImageInfo
  | [] => [a]
  | b :: l =>
    if a.createdAtMs ≤ b.createdAtMs then a :: b :: l
    else b :: insertByCreatedAt a l

/-- Ascending insertion sort by creation time, embedding the
`sort.Slice(..., iCreated.Before(jCreated))` call of
`repoImagesCleanupByPolicy`; insertion sort is a (stable) refinement of
Go's unstable sort, whose order on equal timestamps is unspecified. -/
def sortByCreatedAt : List ImageInfo → List ImageInfo
  | [] => []
  | a :: l => insertByCreatedAt a (sortByCreatedAt l)

/-- The expiry test of `repoImagesCleanupByPolicy` (src/unnamed/part_002,
lines 878-896): an expiry period is configured and the image was created
strictly before `expiryTime = now - expiryPeriod`
(`repoImage.GetCreatedAt().Before(expiryTime)`). -/
def imageExpired (options : RepoImagesCleanupByPolicyOptions) (now : Int)
    (i : ImageInfo) : Bool :=
  options.hasExpiryPeriod && decide (i.createdAtMs < now - options.expiryPeriod)

/-- Embeds `imagesCleanupManager.repoImagesCleanupByPolicy`
(src/unnamed/part_002, lines 877-924) with the current time passed
explicitly.  Returns the remaining repo images and the deleted ones: the
scheme's images are sorted ascending by creation time, the ones created
strictly before `now - expiryPeriod` are deleted when an expiry period is
configured, and when a limit is configured and more non-expired images
remain than the limit, the oldest excess images are deleted. -/
def repoImagesCleanupByPolicy (now : Int)
    (repoImages repoImagesWithScheme : List ImageInfo)
    (options : RepoImagesCleanupByPolicyOptions) :
    List ImageInfo × List ImageInfo :=
  let sorted := sortByCreatedAt repoImagesWithScheme
  let expired := sorted.filter (imageExpired options now)
  let notExpired := sorted.filter (fun i => !imageExpired options now i)
  let repoImages1 :=
    if expired.isEmpty then repoImages else exceptRepoImageList repoImages expired
  if options.hasLimit && decide (options.limit < notExpired.length) then
    let excess := notExpired.take (notExpired.length - options.limit)
    (exceptRepoImageList repoImages1 excess, expired ++ excess)
  else (repoImages1, expired)

/-- Embeds `imagesCleanupManager.repoImagesCleanupByPolicies`
(src/unnamed/part_002, lines 807-867): split the images carrying a
tag-strategy label into the git-tag, git-commit and stages-signature
scheme lists (images without the label are skipped) and run the retention
policy for each strategy in that order, threading the remaining images;
also returns everything deleted. -/
def repoImagesCleanupByPolicies (now : Int) (policies : ImagesCleanupPolicies)
    (repoImages : List ImageInfo) : List ImageInfo × List ImageInfo :=
  let withGitTagScheme := repoImages.filter
    (fun i => decide (labelGet? i WerfTagStrategyLabel = some GitTagStrategy))
  let withGitCommitScheme := repoImages.filter
    (fun i => decide (labelGet? i WerfTagStrategyLabel = some GitCommitStrategy))
  let withStagesSignatureScheme := repoImages.filter
    (fun i =>
      decide (labelGet? i WerfTagStrategyLabel = some StagesSignatureStrategy))
  let step1 := repoImagesCleanupByPolicy now repoImages withGitTagScheme
    { hasLimit := policies.gitTagStrategyHasLimit,
      limit := policies.gitTagStrategyLimit,
      hasExpiryPeriod := policies.gitTagStrategyHasExpiryPeriod,
      expiryPeriod := policies.gitTagStrategyExpiryPeriod,
      schemeName := GitTagStrategy }
  let step2 := repoImagesCleanupByPolicy now step1.1 withGitCommitScheme
    { hasLimit := policies.gitCommitStrategyHasLimit,
      limit := policies.gitCommitStrategyLimit,
      hasExpiryPeriod := policies.gitCommitStrategyHasExpiryPeriod,
      expiryPeriod := policies.gitCommitStrategyExpiryPeriod,
      schemeName := GitCommitStrategy }
  let step3 := repoImagesCleanupByPolicy now step2.1 withStagesSignatureScheme
    { hasLimit := policies.stagesSignatureStrategyHasLimit,
      limit := policies.stagesSignatureStrategyLimit,
      hasExpiryPeriod := policies.stagesSignatureStrategyHasExpiryPeriod,
      expiryPeriod := policies.stagesSignatureStrategyExpiryPeriod,
      schemeName := StagesSignatureStrategy }
  (step3.1, step1.2 ++ step2.2 ++ step3.2)

/-! ### Git-history-based cleanup (src/unnamed/part_002, lines 404-672) -/

/-- Distinct content signatures occurring in an image's stored per-commit
metadata (the key set of the content-signature grouping built by
`getImageContentSignatureRepoImageListToCleanup`). -/
def contentSignaturesOf (metadata : List (String × String)) : List String :=
  (metadata.map Prod.snd).dedup

/-- Embeds `getImageContentSignatureRepoImageListToCleanup`
(src/unnamed/part_002, lines 671-696) for one image name: for each
distinct content signature in the metadata, the cleanup candidates whose
content-signature label equals it. -/
def sigMapOf (metadata : List (String × String)) (toCleanup : List ImageInfo) :
    List (String × List ImageInfo) :=
  (contentSignaturesOf metadata).map (fun sig =>
    (sig, toCleanup.filter
      (fun i => decide (labelDefault i WerfContentSignatureLabel = sig))))

/-- Embeds `getImageContentSignatureExistingCommitHashes`
(src/unnamed/part_002, lines 975-999) for one image name and one content
signature: the metadata commits with that signature that exist in git. -/
def existingCommitsOf (metadata : List (String × String))
    (commitExists : String → Bool) (sig : String) : List String :=
  (metadata.filter (fun p => commitExists p.1 && decide (p.2 = sig))).map Prod.fst

/-- Remove from a list every image occurring in some value of the map,
embedding the loop of `getImageRepoImageListWithoutRelatedImageMetadata`
(src/unnamed/part_002, lines 953-972). -/
def exceptAllValues (l : List ImageInfo) (m : List (String × List ImageInfo)) :
    List ImageInfo :=
  m.foldl (fun acc p => exceptRepoImageList acc p.2) l

/-- The observable outcome of the git-history-based cleanup for one image
name: the saved images (the name's slice of `resultRepoImages`), the
deleted images, and whether the warning about tags without related image
metadata was emitted. -/
structure GitHistoryCleanupOutcome where
  saved : List ImageInfo
  deleted : List ImageInfo
  warnedNoMetadata : Bool
deriving DecidableEq

/-- Embeds `imagesCleanupManager.repoImagesGitHistoryBasedCleanup`
(src/unnamed/part_002, lines 404-672) for one image name, with the stored
per-commit metadata (commit, content signature), the git commit-existence
oracle and the reference scan (`scanReferencesHistory`, not under the
given sources, abstracted as the function from the signature/commit
grouping to the reached signatures) passed explicitly.  Tags without
related image metadata are warned about and moved to the saved result when
the v1.2 flag is off, and left among the cleanup candidates when it is on;
then the images of reached content signatures are saved and everything
still in the candidate list is deleted. -/
def repoImagesGitHistoryBasedCleanupForImage (v12 : Bool)
    (toCleanup : List ImageInfo) (metadata : List (String × String))
    (commitExists : String → Bool)
    (scan : List (String × List String) → List String) :
    GitHistoryCleanupOutcome :=
  let sigMap := sigMapOf metadata toCleanup
  let withoutMeta := exceptAllValues toCleanup sigMap
  let warned := !v12 && !withoutMeta.isEmpty
  let saved0 := if !v12 then withoutMeta else []
  let toCleanup1 :=
    if !v12 then exceptRepoImageList toCleanup withoutMeta else toCleanup
  let sigCommits := sigMap.filterMap (fun p =>
    let ex := existingCommitsOf metadata commitExists p.1
    if ex.isEmpty then none else some (p.1, ex))
  let step :=
    if !sigCommits.isEmpty then
      let keep := (scan sigCommits).foldl
        (fun acc sig => acc ++ ((sigMap.lookup sig).getD [])) []
      (saved0 ++ keep, exceptRepoImageList toCleanup1 keep)
    else (saved0, toCleanup1)
  { saved := step.1, deleted := step.2, warnedNoMetadata := warned }

/-! ### Batch delete loops (src/pkg/cleaning/stages_purge.go and
src/unnamed/part_002, lines 633-663) -/

/-- Embeds the managed-image deletion loop of `stagesPurgeManager.run`
(src/pkg/cleaning/stages_purge.go, lines 92-106): for each managed image,
unless in dry-run, delete its record and return the error immediately on
failure; returns the list of processed (logged) names. -/
def purgeManagedImagesLoop (dryRun : Bool) (rm : String → Except String Unit) :
    List String → Except String (List String)
  | [] => Except.ok []
  | n :: rest =>
    if dryRun then (purgeManagedImagesLoop dryRun rm rest).map (fun l => n :: l)
    else
      match rm n with
      | Except.error e => Except.error e
      | Except.ok _ => (purgeManagedImagesLoop dryRun rm rest).map (fun l => n :: l)

/-- Embeds the per-commit metadata deletion loop of
`repoImagesGitHistoryBasedCleanup` (src/unnamed/part_002, lines 639-658):
for each unused commit, unless in dry-run, delete the metadata record; a
failure only emits a warning and the loop continues.  Returns the warnings
emitted. -/
def rmImageCommitWarnings (dryRun : Bool) (rm : String → Except String Unit) :
    List String → List String
  | [] => []
  | c :: rest =>
    if dryRun then rmImageCommitWarnings dryRun rm rest
    else
      match rm c with
      | Except.error e =>
        ("WARNING: Metadata image deletion failed: " ++ e)
          :: rmImageCommitWarnings dryRun rm rest
      | Except.ok _ => rmImageCommitWarnings dryRun rm rest

/-- The "Deleting unused images metadata" step for one image name
(src/unnamed/part_002, lines 633-663): runs the deletion loop and always
reports success to the caller. -/
def deleteUnusedImagesMetadata (dryRun : Bool)
    (rm : String → Except String Unit) (commits : List String) :
    Except String (List String) :=
  Except.ok (rmImageCommitWarnings dryRun rm commits)

/-- Whether an `Except` result is a success. -/
def isExceptOk : Except String Unit → Bool
  | Except.ok _ => true
  | Except.error _ => false

/-! ### Concrete fixtures used by counterexamples and witnesses -/

/-- A metadata record image carrying some label map without the
"ContentSignature" key. -/
def sampleOtherLabelImage : ImageInfo :=
  { repository := "registry.example.com/project", tag := "sample",
    labels := some [("foo", "bar")], createdAtMs := 0 }

/-- A registry oracle holding `sampleOtherLabelImage` exactly at the
metadata record name for image "app" and commit "0123abc". -/
def tryGetSampleMetadataImage (n : String) : Except String (Option ImageInfo) :=
  if n = makeRepoImageMetadataByCommitImageRecord "registry.example.com/project"
      "app" "0123abc" then
    Except.ok (some sampleOtherLabelImage)
  else Except.ok none

/-- A deletion oracle failing exactly on the item "a". -/
def rmFailOnFirstSample (n : String) : Except String Unit :=
  if n = "a" then Except.error "boom" else Except.ok ()

/-- A git-commit-strategy image created at time `k` with tag `t`. -/
def gitCommitImageAt (k : Int) (t : String) : ImageInfo :=
  { repository := "registry.example.com/project", tag := t,
    labels := some [(WerfTagStrategyLabel, GitCommitStrategy)], createdAtMs := k }

/-- Scenario S4: five git-commit images with ascending creation times. -/
def s4Images : List ImageInfo :=
  [gitCommitImageAt 1 "t1", gitCommitImageAt 2 "t2", gitCommitImageAt 3 "t3",
    gitCommitImageAt 4 "t4", gitCommitImageAt 5 "t5"]

/-- Scenario S4: a git-commit limit of 3 and no other policy. -/
def s4Policies : ImagesCleanupPolicies :=
  { gitTagStrategyHasLimit := false, gitTagStrategyLimit := 0,
    gitTagStrategyHasExpiryPeriod := false, gitTagStrategyExpiryPeriod := 0,
    gitCommitStrategyHasLimit := true, gitCommitStrategyLimit := 3,
    gitCommitStrategyHasExpiryPeriod := false, gitCommitStrategyExpiryPeriod := 0,
    stagesSignatureStrategyHasLimit := false, stagesSignatureStrategyLimit := 0,
    stagesSignatureStrategyHasExpiryPeriod := false,
    stagesSignatureStrategyExpiryPeriod := 0 }

/-- The S4 images in shuffled (non-ascending) registry order, to exercise
the sort of the retention pass. -/
def s4ImagesShuffled : List ImageInfo :=
  [gitCommitImageAt 3 "t3", gitCommitImageAt 1 "t1", gitCommitImageAt 5 "t5",
    gitCommitImageAt 2 "t2", gitCommitImageAt 4 "t4"]

/-- A cleanup phase keeping every candidate and deleting nothing. -/
def keepAllPhase (l : List ImageInfo) : List ImageInfo × List ImageInfo :=
  (l, [])

/-- An image whose `Repository:Tag` is deployed in the sample cluster. -/
def sampleDeployedImage : ImageInfo :=
  { repository := "registry.example.com/project", tag := "v1",
    labels := none, createdAtMs := 0 }

/-- An image without any related per-commit metadata (its
content-signature label matches no stored metadata record). -/
def sampleNoMetadataImage : ImageInfo :=
  { repository := "registry.example.com/project", tag := "orphan",
    labels := some [(WerfContentSignatureLabel, "other-signature")],
    createdAtMs := 0 }

/-! ### Lemmas about decimal rendering and parsing -/

theorem natToDecimalChars_ne_nil (n : Nat) : natToDecimalChars n ≠ [] := by
  rw [natToDecimalChars]
  split
  · simp
  · simp

theorem decDigitVal_digitCharOf {d : Nat} (h : d < 10) :
    decDigitVal (digitCharOf d) = some d := by
  revert h
  revert d
  decide

theorem parseDecAux_append (xs ys : List Char) (acc : Nat) :
    parseDecAux (xs ++ ys) acc =
      (parseDecAux xs acc).bind (fun v => parseDecAux ys v) := by
  induction xs generalizing acc with
  | nil => simp [parseDecAux]
  | cons c cs ih =>
    simp only [List.cons_append, parseDecAux]
    cases decDigitVal c with
    | none => simp
    | some d => simpa using ih (acc * 10 + d)

theorem parseDecAux_natToDecimalChars (n : Nat) :
    ∀ acc : Nat, parseDecAux (natToDecimalChars n) acc =
      some (acc * 10 ^ (natToDecimalChars n).length + n) := by
  induction n using Nat.strong_induction_on with
  | _ n ih =>
    intro acc
    rw [natToDecimalChars]
    by_cases h : n < 10
    · rw [if_pos h]
      simp [parseDecAux, decDigitVal_digitCharOf h]
    · rw [if_neg h]
      rw [parseDecAux_append]
      rw [ih (n / 10) (Nat.div_lt_self (by omega) (by omega)) acc]
      simp only [Option.bind_some, parseDecAux,
        decDigitVal_digitCharOf (Nat.mod_lt n (by omega)),
        List.length_append, List.length_singleton]
      have hdm : 10 * (n / 10) + n % 10 = n := Nat.div_add_mod n 10
      simp only [Option.some_bind]
      congr 1
      generalize (natToDecimalChars (n / 10)).length = L
      calc (acc * 10 ^ L + n / 10) * 10 + n % 10
          = acc * (10 ^ L * 10) + (10 * (n / 10) + n % 10) := by ring
        _ = acc * 10 ^ (L + 1) + n := by rw [hdm, pow_succ]

theorem parseDecimalChars_natToDecimalChars (n : Nat) :
    parseDecimalChars (natToDecimalChars n) = some n := by
  have hne := natToDecimalChars_ne_nil n
  have hparse := parseDecAux_natToDecimalChars n 0
  cases hcs : natToDecimalChars n with
  | nil => exact absurd hcs hne
  | cons c cs =>
    rw [hcs] at hparse
    simpa [parseDecimalChars] using hparse

theorem splitN2OnDash_append {xs : List Char} (ys : List Char)
    (h : '-' ∉ xs) : splitN2OnDash (xs ++ '-' :: ys) = some (xs, ys) := by
  induction xs with
  | nil => simp [splitN2OnDash]
  | cons c cs ih =>
    have hc : c ≠ '-' := fun hc => h (hc ▸ List.mem_cons_self c cs)
    have hcs : '-' ∉ cs := fun hm => h (List.mem_cons_of_mem c hm)
    simp [splitN2OnDash, hc, ih hcs]

theorem ParseUniqueIDAsTimestamp_natToDecimalChars {n : Nat} (h : n < 2 ^ 63) :
    ParseUniqueIDAsTimestamp (natToDecimalChars n) = some n := by
  rw [ParseUniqueIDAsTimestamp, parseDecimalChars_natToDecimalChars]
  have h2 : n < 9223372036854775808 := by
    calc n < 2 ^ 63 := h
      _ = 9223372036854775808 := by norm_num
  simp [h2]

/-! ### Claims about the stage tag codec -/

/-- Claim C2, counterexample: the claim asserts the encode/decode
round-trip for every signature, "including signatures that themselves
contain a hyphen".  For signature "ab-cd" and unique id 123 the encoded tag
is "ab-cd-123", the decoder splits at the first hyphen, fails to parse
"cd-123" as a timestamp, and returns an unexpected-tag-format error rather
than (ab-cd, 123). -/
theorem stage_tag_roundtrip_fails_on_hyphenated_signature :
    getSignatureAndUniqueIDFromRepoStageImageTag (constructStageTag "ab-cd" 123)
        = none ∧
      getSignatureAndUniqueIDFromRepoStageImageTag (constructStageTag "ab-cd" 123)
        ≠ some ("ab-cd", 123) := by
  constructor
  · decide
  · decide

/-- Claim C2 (amended): for every pair (signature, unique id) where the
signature contains no hyphen (hyphen-free signatures in particular contain
no reserved record prefix, all of which contain hyphens) and the unique id
fits a positive int64, decoding the encoded stage tag
"<signature>-<unique id>" yields back exactly (signature, unique id). -/
theorem stage_tag_roundtrip (signature : String) (uniqueID : Nat)
    (hs : '-' ∉ signature.data) (hu : uniqueID < 2 ^ 63) :
    getSignatureAndUniqueIDFromRepoStageImageTag
        (constructStageTag signature uniqueID) = some (signature, uniqueID) := by
  obtain ⟨sigChars⟩ := signature
  have hdata : (constructStageTag (String.mk sigChars) uniqueID).data
      = sigChars ++ '-' :: natToDecimalChars uniqueID := by
    simp [constructStageTag, String.data_append]
  rw [getSignatureAndUniqueIDFromRepoStageImageTag, hdata,
    splitN2OnDash_append _ hs]
  simp [ParseUniqueIDAsTimestamp_natToDecimalChars hu]

/-- Claim C2, witness for the amended round-trip theorem at signature
"abc123" and unique id 1700000000000. -/
theorem stage_tag_roundtrip_witness :
    '-' ∉ ("abc123" : String).data ∧ 1700000000000 < 2 ^ 63 ∧
      getSignatureAndUniqueIDFromRepoStageImageTag
          (constructStageTag "abc123" 1700000000000)
        = some ("abc123", 1700000000000) :=
  ⟨by decide, by decide, stage_tag_roundtrip "abc123" 1700000000000
    (by decide) (by decide)⟩

/-- Claim C8: stage enumeration over the scenario tag list: record-prefixed
tags are filtered out, unparsable tags are skipped without error, and each
remaining tag contributes one (signature, unique id) entry. -/
theorem GetAllStages_scenario :
    GetAllStages ["abc123-1700000000000", "abc123-1700000001000",
        "managed-image-myapp", "noise", "def-notanumber"]
      = [("abc123", 1700000000000), ("abc123", 1700000001000)] := by
  decide

/-- Claim C10: GetStagesBySignature selects tags by bare string prefix
(tag "abcd-1700000000000" is selected for signature "abc" without any
dash-delimiter requirement), skips prefixed tags whose suffix after the
first dash fails the timestamp parse, and every returned stage id carries
the argument signature, even when the tag's encoded signature strictly
extends it. -/
theorem GetStagesBySignature_bare_prefix_and_signature_override :
    GetStagesBySignature ["abcd-1700000000000", "abc", "xyz-123"] "abc"
        = [("abc", 1700000000000)] ∧
      ∀ (tags : List String) (signature : String) (e : String × Nat),
        e ∈ GetStagesBySignature tags signature → e.1 = signature := by
  refine ⟨by decide, ?_⟩
  intro tags signature e he
  rw [GetStagesBySignature] at he
  obtain ⟨tag, -, hf⟩ := List.mem_filterMap.mp he
  split at hf
  · cases hf
  · cases hdec : getSignatureAndUniqueIDFromRepoStageImageTag tag with
    | none => rw [hdec] at hf; cases hf
    | some p =>
      rw [hdec] at hf
      simp only [Option.some.injEq] at hf
      rw [← hf]

/-- Claim C10, witness: the membership part of the theorem applied to the
concrete scenario. -/
theorem GetStagesBySignature_witness :
    ("abc", 1700000000000)
        ∈ GetStagesBySignature ["abcd-1700000000000", "abc", "xyz-123"] "abc" ∧
      (("abc", 1700000000000) : String × Nat).1 = "abc" := by
  have hmem : ("abc", 1700000000000)
      ∈ GetStagesBySignature ["abcd-1700000000000", "abc", "xyz-123"] "abc" := by
    rw [(GetStagesBySignature_bare_prefix_and_signature_override).1]
    exact List.mem_singleton.mpr rfl
  exact ⟨hmem,
    (GetStagesBySignature_bare_prefix_and_signature_override).2 _ _ _ hmem⟩

/-! ### Lemmas about the per-commit metadata tag cap -/

theorem metadataTagFormatApply_length (n c : String) :
    (metadataTagFormatApply n c).length = 26 + n.length + c.length := by
  have h1 : ("image-metadata-by-commit-" : String).length = 25 := rfl
  have h2 : ("-" : String).length = 1 := rfl
  simp only [metadataTagFormatApply, String.length_append, h1, h2]
  omega

theorem replaceDashWithUnderscore_length (s : String) :
    (replaceDashWithUnderscore s).length = s.length := by
  obtain ⟨l⟩ := s
  simp [replaceDashWithUnderscore, String.length]

theorem no_dash_in_replaceDashWithUnderscore (s : String) :
    '-' ∉ (replaceDashWithUnderscore s).data := by
  intro hmem
  rw [replaceDashWithUnderscore] at hmem
  obtain ⟨c, -, hc⟩ := List.mem_map.mp hmem
  by_cases h : c = '-'
  · rw [if_pos h] at hc
    exact absurd hc (by decide)
  · rw [if_neg h] at hc
    exact h hc

/-- Claim C5: for every image name and every commit of length at most 40,
the encoded per-commit metadata tag has length at most 128; when the
unshrunk form exceeds 128 characters, the result is exactly 128 characters
long and consists of the tag format applied to a dash-free shrunk name
slug and the unchanged commit (so the trailing commit delimiter of the
format survives while every dash inside the shrunk slug became an
underscore). -/
theorem metadata_tag_cap (name commit : String) (hc : commit.length ≤ 40) :
    (slugRepoImageMetadataByCommitImageRecordTag name commit).length ≤ 128 ∧
      (128 < (metadataTagFormatApply (slugImageNameAsDockerImageTag name)
            commit).length →
        (slugRepoImageMetadataByCommitImageRecordTag name commit).length = 128 ∧
          ∃ core : String,
            slugRepoImageMetadataByCommitImageRecordTag name commit
                = metadataTagFormatApply core commit ∧ '-' ∉ core.data) := by
  by_cases h :
      (metadataTagFormatApply (slugImageNameAsDockerImageTag name) commit).length
        ≤ 128
  · have hdef : slugRepoImageMetadataByCommitImageRecordTag name commit
        = metadataTagFormatApply (slugImageNameAsDockerImageTag name) commit := by
      rw [slugRepoImageMetadataByCommitImageRecordTag, if_pos h]
    refine ⟨by rw [hdef]; exact h, fun hgt => absurd h (by omega)⟩
  · have hlen := metadataTagFormatApply_length (slugImageNameAsDockerImageTag name)
      commit
    have hnotle : ¬ (((slugImageNameAsDockerImageTag name).length : Int) ≤
        ((slugImageNameAsDockerImageTag name).length : Int) -
          (((metadataTagFormatApply (slugImageNameAsDockerImageTag name)
              commit).length : Int) - 128)) := by
      omega
    have hshrunk : LimitedSlug (slugImageNameAsDockerImageTag name)
          (((slugImageNameAsDockerImageTag name).length : Int) -
            (((metadataTagFormatApply (slugImageNameAsDockerImageTag name)
                commit).length : Int) - 128))
        = String.mk ((slugImageNameAsDockerImageTag name).data.take
            ((((slugImageNameAsDockerImageTag name).length : Int) -
              (((metadataTagFormatApply (slugImageNameAsDockerImageTag name)
                  commit).length : Int) - 128)).toNat)) := by
      rw [LimitedSlug, if_neg hnotle]
    have hdatalen : (slugImageNameAsDockerImageTag name).data.length
        = (slugImageNameAsDockerImageTag name).length := rfl
    have hshrunklen : (LimitedSlug (slugImageNameAsDockerImageTag name)
          (((slugImageNameAsDockerImageTag name).length : Int) -
            (((metadataTagFormatApply (slugImageNameAsDockerImageTag name)
                commit).length : Int) - 128))).length
        = 102 - commit.length := by
      rw [hshrunk]
      show ((slugImageNameAsDockerImageTag name).data.take
          ((((slugImageNameAsDockerImageTag name).length : Int) -
            (((metadataTagFormatApply (slugImageNameAsDockerImageTag name)
                commit).length : Int) - 128)).toNat)).length
        = 102 - commit.length
      rw [List.length_take, hdatalen]
      omega
    have hdef : slugRepoImageMetadataByCommitImageRecordTag name commit
        = metadataTagFormatApply
            (replaceDashWithUnderscore
              (LimitedSlug (slugImageNameAsDockerImageTag name)
                (((slugImageNameAsDockerImageTag name).length : Int) -
                  (((metadataTagFormatApply (slugImageNameAsDockerImageTag name)
                      commit).length : Int) - 128))))
            commit := by
      rw [slugRepoImageMetadataByCommitImageRecordTag, if_neg h]
    have hreslen : (slugRepoImageMetadataByCommitImageRecordTag name commit).length
        = 128 := by
      rw [hdef, metadataTagFormatApply_length, replaceDashWithUnderscore_length,
        hshrunklen]
      omega
    exact ⟨by omega, fun _ =>
      ⟨hreslen, ⟨_, hdef, no_dash_in_replaceDashWithUnderscore _⟩⟩⟩

/-- Claim C5, witness: a name of length 120 and a 40-character commit,
whose unshrunk tag form has length 120 + 25 + 1 + 40 = 186 > 128. -/
theorem metadata_tag_cap_witness :
    ("0123456789012345678901234567890123456789" : String).length ≤ 40 ∧
      ((slugRepoImageMetadataByCommitImageRecordTag
            "aaaaaaaaaaaaaaaaaaaaaaaaaaaaaaaaaaaaaaaaaaaaaaaaaaaaaaaaaaaaaaaaaaaaaaaaaaaaaaaaaaaaaaaaaaaaaaaaaaaaaaaaaaaaaaaaaaaaaa"
            "0123456789012345678901234567890123456789").length ≤ 128 ∧
        (128 < (metadataTagFormatApply
              (slugImageNameAsDockerImageTag
                "aaaaaaaaaaaaaaaaaaaaaaaaaaaaaaaaaaaaaaaaaaaaaaaaaaaaaaaaaaaaaaaaaaaaaaaaaaaaaaaaaaaaaaaaaaaaaaaaaaaaaaaaaaaaaaaaaaaaaa")
              "0123456789012345678901234567890123456789").length →
          (slugRepoImageMetadataByCommitImageRecordTag
              "aaaaaaaaaaaaaaaaaaaaaaaaaaaaaaaaaaaaaaaaaaaaaaaaaaaaaaaaaaaaaaaaaaaaaaaaaaaaaaaaaaaaaaaaaaaaaaaaaaaaaaaaaaaaaaaaaaaaaa"
              "0123456789012345678901234567890123456789").length = 128 ∧
            ∃ core : String,
              slugRepoImageMetadataByCommitImageRecordTag
                  "aaaaaaaaaaaaaaaaaaaaaaaaaaaaaaaaaaaaaaaaaaaaaaaaaaaaaaaaaaaaaaaaaaaaaaaaaaaaaaaaaaaaaaaaaaaaaaaaaaaaaaaaaaaaaaaaaaaaaa"
                  "0123456789012345678901234567890123456789"
                  = metadataTagFormatApply core
                      "0123456789012345678901234567890123456789" ∧
                '-' ∉ core.data)) :=
  ⟨by decide, metadata_tag_cap
    "aaaaaaaaaaaaaaaaaaaaaaaaaaaaaaaaaaaaaaaaaaaaaaaaaaaaaaaaaaaaaaaaaaaaaaaaaaaaaaaaaaaaaaaaaaaaaaaaaaaaaaaaaaaaaaaaaaaaaa"
    "0123456789012345678901234567890123456789" (by decide)⟩

/-! ### Metadata fetch and batch deletion -/

/-- Claim C6, counterexample: the claim says a fetched image lacking a
`ContentSignature` label yields null.  For an image carrying a non-nil
label map without that key, `GetImageMetadataByCommit` returns a non-null
record whose content signature is the zero value "". -/
theorem GetImageMetadataByCommit_missing_label_not_null :
    GetImageMetadataByCommit tryGetSampleMetadataImage
          "registry.example.com/project" "app" "0123abc"
        = Except.ok (some { ContentSignature := "" }) ∧
      GetImageMetadataByCommit tryGetSampleMetadataImage
          "registry.example.com/project" "app" "0123abc"
        ≠ Except.ok none := by
  have h1 : GetImageMetadataByCommit tryGetSampleMetadataImage
      "registry.example.com/project" "app" "0123abc"
      = Except.ok (some { ContentSignature := "" }) := rfl
  refine ⟨h1, ?_⟩
  rw [h1]
  intro h
  simp at h

/-- Claim C6 (amended): `GetImageMetadataByCommit` returns null (without
error) when the encoded metadata tag is absent from the registry or the
fetched image's label map is nil; when the image exists with a non-nil
label map it returns a non-null record holding the `ContentSignature`
label value, the empty string when that key is absent. -/
theorem GetImageMetadataByCommit_amended
    (tryGet : String → Except String (Option ImageInfo))
    (repoAddress imageName commit : String) :
    (tryGet (makeRepoImageMetadataByCommitImageRecord repoAddress imageName commit)
          = Except.ok none →
        GetImageMetadataByCommit tryGet repoAddress imageName commit
          = Except.ok none) ∧
      (∀ info : ImageInfo,
        tryGet (makeRepoImageMetadataByCommitImageRecord repoAddress imageName
            commit) = Except.ok (some info) →
        (info.labels = none →
          GetImageMetadataByCommit tryGet repoAddress imageName commit
            = Except.ok none) ∧
        (∀ ls : List (String × String), info.labels = some ls →
          GetImageMetadataByCommit tryGet repoAddress imageName commit
            = Except.ok (some
                { ContentSignature := (ls.lookup "ContentSignature").getD "" }))) := by
  constructor
  · intro habsent
    rw [GetImageMetadataByCommit, habsent]
  · intro info hsome
    constructor
    · intro hnil
      simp only [GetImageMetadataByCommit, hsome, hnil]
    · intro ls hls
      simp only [GetImageMetadataByCommit, hsome, hls]

/-- Claim C6, witness for the amended theorem: an always-empty registry
yields null without error. -/
theorem GetImageMetadataByCommit_amended_witness :
    (fun _ : String => (Except.ok none : Except String (Option ImageInfo)))
        (makeRepoImageMetadataByCommitImageRecord "registry.example.com/project"
          "app" "0123abc") = Except.ok none ∧
      GetImageMetadataByCommit
          (fun _ : String => (Except.ok none : Except String (Option ImageInfo)))
          "registry.example.com/project" "app" "0123abc" = Except.ok none :=
  ⟨rfl, (GetImageMetadataByCommit_amended
    (fun _ => Except.ok none) "registry.example.com/project" "app" "0123abc").1 rfl⟩

/-- Claim C7, counterexample: with an oracle failing on item "a", the
purge managed-image loop aborts immediately with that error (item "b" is
never processed, no processed list is produced), while the cleanup
metadata-deletion step collects the failure as a warning and still reports
success; neither matches "remaining items are still processed and the
invocation reports failure at the end". -/
theorem batch_delete_claim_counterexample :
    purgeManagedImagesLoop false rmFailOnFirstSample ["a", "b"]
        = Except.error "boom" ∧
      deleteUnusedImagesMetadata false rmFailOnFirstSample ["a", "b"]
        = Except.ok ["WARNING: Metadata image deletion failed: boom"] := by
  constructor
  · rfl
  · rfl

/-- Claim C7 (amended): during purge, the first managed-image deletion
failure aborts the invocation immediately with that error, so the
remaining records are not processed; during git-history cleanup, a
per-commit metadata deletion failure only yields a warning, every
remaining item is still attempted, and the step always reports success
(one warning per failed item). -/
theorem batch_delete_amended :
    (∀ (rm : String → Except String Unit) (n : String) (rest : List String)
        (e : String), rm n = Except.error e →
        purgeManagedImagesLoop false rm (n :: rest) = Except.error e) ∧
      (∀ (rm : String → Except String Unit) (commits : List String),
        deleteUnusedImagesMetadata false rm commits
            = Except.ok (rmImageCommitWarnings false rm commits) ∧
          (rmImageCommitWarnings false rm commits).length
            = (commits.filter (fun c => !isExceptOk (rm c))).length) := by
  constructor
  · intro rm n rest e herr
    rw [purgeManagedImagesLoop, if_neg (by simp), herr]
  · intro rm commits
    refine ⟨rfl, ?_⟩
    induction commits with
    | nil => rfl
    | cons c rest ih =>
      rw [rmImageCommitWarnings, if_neg (by simp)]
      cases hc : rm c with
      | error e =>
        have hok : isExceptOk (rm c) = false := by rw [hc]; rfl
        simp [List.filter_cons, hok, ih]
      | ok u =>
        have hok : isExceptOk (rm c) = true := by rw [hc]; rfl
        simp [List.filter_cons, hok, ih]

/-- Claim C7, witness for the amended theorem: the purge loop aborts with
the first failure. -/
theorem batch_delete_amended_witness :
    rmFailOnFirstSample "a" = Except.error "boom" ∧
      purgeManagedImagesLoop false rmFailOnFirstSample ["a", "b"]
        = Except.error "boom" :=
  ⟨rfl, batch_delete_amended.1 rmFailOnFirstSample "a" ["b"] "boom" rfl⟩

/-! ### Lemmas about list membership in the cleanup engine -/

theorem mem_exceptRepoImageList {x : ImageInfo} {l t : List ImageInfo} :
    x ∈ exceptRepoImageList l t ↔ x ∈ l ∧ x ∉ t := by
  simp [exceptRepoImageList]

theorem mem_insertByCreatedAt {x a : ImageInfo} {l : List ImageInfo} :
    x ∈ insertByCreatedAt a l ↔ x = a ∨ x ∈ l := by
  induction l with
  | nil => simp [insertByCreatedAt]
  | cons b m ih =>
    rw [insertByCreatedAt]
    split
    · simp [List.mem_cons]
    · simp only [List.mem_cons, ih]
      tauto

theorem mem_sortByCreatedAt {x : ImageInfo} {l : List ImageInfo} :
    x ∈ sortByCreatedAt l ↔ x ∈ l := by
  induction l with
  | nil => simp [sortByCreatedAt]
  | cons a m ih =>
    rw [sortByCreatedAt, mem_insertByCreatedAt]
    simp [List.mem_cons, ih]

theorem sortByCreatedAt_eq_self {l : List ImageInfo} :
    l.Pairwise (fun a b => a.createdAtMs ≤ b.createdAtMs) →
      sortByCreatedAt l = l := by
  induction l with
  | nil => intro _; rfl
  | cons a m ih =>
    intro h
    rw [sortByCreatedAt, ih h.of_cons]
    cases m with
    | nil => rfl
    | cons b k =>
      rw [insertByCreatedAt,
        if_pos ((List.pairwise_cons.mp h).1 b (List.mem_cons_self b k))]

theorem pairwise_insertByCreatedAt {a : ImageInfo} {l : List ImageInfo}
    (h : l.Pairwise (fun x y => x.createdAtMs ≤ y.createdAtMs)) :
    (insertByCreatedAt a l).Pairwise
      (fun x y => x.createdAtMs ≤ y.createdAtMs) := by
  induction l with
  | nil => simp [insertByCreatedAt]
  | cons b m ih =>
    rw [insertByCreatedAt]
    split
    next hab =>
      rw [List.pairwise_cons]
      refine ⟨?_, h⟩
      intro x hx
      rcases List.mem_cons.mp hx with rfl | hxm
      · exact hab
      · exact le_trans hab ((List.pairwise_cons.mp h).1 x hxm)
    next hab =>
      rw [List.pairwise_cons]
      refine ⟨?_, ih h.of_cons⟩
      intro x hx
      rcases mem_insertByCreatedAt.mp hx with rfl | hxm
      · exact le_of_not_le hab
      · exact (List.pairwise_cons.mp h).1 x hxm

theorem sortByCreatedAt_pairwise (l : List ImageInfo) :
    (sortByCreatedAt l).Pairwise (fun x y => x.createdAtMs ≤ y.createdAtMs) := by
  induction l with
  | nil => simp [sortByCreatedAt]
  | cons a m ih =>
    rw [sortByCreatedAt]
    exact pairwise_insertByCreatedAt ih

theorem insertByCreatedAt_perm (a : ImageInfo) (l : List ImageInfo) :
    (insertByCreatedAt a l).Perm (a :: l) := by
  induction l with
  | nil => simp [insertByCreatedAt]
  | cons b m ih =>
    rw [insertByCreatedAt]
    split
    · exact List.Perm.refl _
    · exact (List.Perm.cons b ih).trans (List.Perm.swap a b m)

theorem sortByCreatedAt_perm (l : List ImageInfo) :
    (sortByCreatedAt l).Perm l := by
  induction l with
  | nil => exact List.Perm.refl _
  | cons a m ih =>
    rw [sortByCreatedAt]
    exact (insertByCreatedAt_perm a (sortByCreatedAt m)).trans
      (List.Perm.cons a ih)

/-- The deleted set of the retention pass: the expired images of the
sorted scheme list, followed, under limit pressure, by the oldest excess
of the sorted non-expired images. -/
theorem repoImagesCleanupByPolicy_deleted (now : Int)
    (repoImages repoImagesWithScheme : List ImageInfo)
    (options : RepoImagesCleanupByPolicyOptions) :
    (repoImagesCleanupByPolicy now repoImages repoImagesWithScheme options).2
      = (sortByCreatedAt repoImagesWithScheme).filter (imageExpired options now)
        ++ (if (options.hasLimit && decide (options.limit <
              ((sortByCreatedAt repoImagesWithScheme).filter
                (fun i => !imageExpired options now i)).length)) = true then
            ((sortByCreatedAt repoImagesWithScheme).filter
              (fun i => !imageExpired options now i)).take
              (((sortByCreatedAt repoImagesWithScheme).filter
                (fun i => !imageExpired options now i)).length - options.limit)
          else []) := by
  simp only [repoImagesCleanupByPolicy]
  split
  next _h => rfl
  next _h => rw [List.append_nil]

theorem pairwise_take_le {m : Nat} {l : List ImageInfo}
    (hpw : l.Pairwise (fun x y => x.createdAtMs ≤ y.createdAtMs))
    {d k : ImageInfo} (hd : d ∈ l.take m) (hk : k ∈ l)
    (hknot : k ∉ l.take m) : d.createdAtMs ≤ k.createdAtMs := by
  have hsplit : l = l.take m ++ l.drop m := (List.take_append_drop m l).symm
  have hpw2 : (l.take m ++ l.drop m).Pairwise
      (fun x y => x.createdAtMs ≤ y.createdAtMs) := hsplit ▸ hpw
  have hkdrop : k ∈ l.drop m := by
    rcases List.mem_append.mp (hsplit ▸ hk) with h1 | h2
    · exact absurd h1 hknot
    · exact h2
  exact (List.pairwise_append.mp hpw2).2.2 d hd k hkdrop

/-- Claim C3: the non-git-history retention pass for one tag strategy.
The pass really sorts: `sortByCreatedAt` yields an ascending permutation
of the scheme images.  Every scheme image created strictly before
`now - expiryPeriod` is deleted when an expiry period is configured.
Deletion is oldest-first on arbitrary input order and any combination of
expiry and limit: every deleted image is no newer than every surviving
scheme image.  Under limit pressure exactly the excess count of
non-expired images is deleted beyond the expired ones; without limit
pressure only expired images are deleted; everything deleted comes from
the scheme list.  Scenario S4 (five git-commit images, limit 3, no
expiry) loses exactly the two oldest, both on ascending and on shuffled
input, and a shuffled combined expiry-and-limit run deletes the expired
image plus the two oldest non-expired ones. -/
theorem retention_policy_expiry_then_limit :
    (∀ l : List ImageInfo,
      (sortByCreatedAt l).Pairwise (fun x y => x.createdAtMs ≤ y.createdAtMs) ∧
        (sortByCreatedAt l).Perm l) ∧
    (∀ (now : Int) (repoImages repoImagesWithScheme : List ImageInfo)
        (options : RepoImagesCleanupByPolicyOptions) (i : ImageInfo),
        i ∈ repoImagesWithScheme → options.hasExpiryPeriod = true →
        i.createdAtMs < now - options.expiryPeriod →
        i ∈ (repoImagesCleanupByPolicy now repoImages repoImagesWithScheme
            options).2) ∧
    (∀ (now : Int) (repoImages repoImagesWithScheme : List ImageInfo)
        (options : RepoImagesCleanupByPolicyOptions) (d k : ImageInfo),
        d ∈ (repoImagesCleanupByPolicy now repoImages repoImagesWithScheme
            options).2 →
        k ∈ repoImagesWithScheme →
        k ∉ (repoImagesCleanupByPolicy now repoImages repoImagesWithScheme
            options).2 →
        d.createdAtMs ≤ k.createdAtMs) ∧
    (∀ (now : Int) (repoImages repoImagesWithScheme : List ImageInfo)
        (options : RepoImagesCleanupByPolicyOptions),
        options.hasLimit = true →
        options.limit < (repoImagesWithScheme.filter
          (fun i => !imageExpired options now i)).length →
        (repoImagesCleanupByPolicy now repoImages repoImagesWithScheme
            options).2.length
          = (repoImagesWithScheme.filter (imageExpired options now)).length +
            ((repoImagesWithScheme.filter
              (fun i => !imageExpired options now i)).length - options.limit)) ∧
    (∀ (now : Int) (repoImages repoImagesWithScheme : List ImageInfo)
        (options : RepoImagesCleanupByPolicyOptions) (d : ImageInfo),
        (options.hasLimit = false ∨
          (repoImagesWithScheme.filter
            (fun i => !imageExpired options now i)).length ≤ options.limit) →
        d ∈ (repoImagesCleanupByPolicy now repoImages repoImagesWithScheme
            options).2 →
        options.hasExpiryPeriod = true ∧
          d.createdAtMs < now - options.expiryPeriod) ∧
    (∀ (now : Int) (repoImages repoImagesWithScheme : List ImageInfo)
        (options : RepoImagesCleanupByPolicyOptions) (d : ImageInfo),
        d ∈ (repoImagesCleanupByPolicy now repoImages repoImagesWithScheme
            options).2 →
        d ∈ repoImagesWithScheme) ∧
    repoImagesCleanupByPolicies 0 s4Policies s4Images
      = ([gitCommitImageAt 3 "t3", gitCommitImageAt 4 "t4",
          gitCommitImageAt 5 "t5"],
         [gitCommitImageAt 1 "t1", gitCommitImageAt 2 "t2"]) ∧
    repoImagesCleanupByPolicies 0 s4Policies s4ImagesShuffled
      = ([gitCommitImageAt 3 "t3", gitCommitImageAt 5 "t5",
          gitCommitImageAt 4 "t4"],
         [gitCommitImageAt 1 "t1", gitCommitImageAt 2 "t2"]) ∧
    repoImagesCleanupByPolicy 10 s4ImagesShuffled s4ImagesShuffled
        { hasLimit := true, limit := 2, hasExpiryPeriod := true,
          expiryPeriod := 8, schemeName := GitCommitStrategy }
      = ([gitCommitImageAt 5 "t5", gitCommitImageAt 4 "t4"],
         [gitCommitImageAt 1 "t1", gitCommitImageAt 2 "t2",
          gitCommitImageAt 3 "t3"]) := by
  refine ⟨?_, ?_, ?_, ?_, ?_, ?_, by decide, by decide, by decide⟩
  · intro l
    exact ⟨sortByCreatedAt_pairwise l, sortByCreatedAt_perm l⟩
  · intro now repoImages withScheme options i hmem hexp hold
    have hexpired : i ∈ (sortByCreatedAt withScheme).filter
        (imageExpired options now) :=
      List.mem_filter.mpr ⟨mem_sortByCreatedAt.mpr hmem, by
        rw [imageExpired, hexp]
        simp [hold]⟩
    rw [repoImagesCleanupByPolicy_deleted]
    exact List.mem_append_left _ hexpired
  · intro now repoImages withScheme options d k hd hk hknot
    rw [repoImagesCleanupByPolicy_deleted] at hd hknot
    have hksorted : k ∈ sortByCreatedAt withScheme := mem_sortByCreatedAt.mpr hk
    have hkP : imageExpired options now k = false := by
      cases hkPcase : imageExpired options now k
      · rfl
      · exact absurd (List.mem_append_left _
          (List.mem_filter.mpr ⟨hksorted, hkPcase⟩)) hknot
    have hexp_le : imageExpired options now d = true →
        d.createdAtMs ≤ k.createdAtMs := by
      intro hdP
      rw [imageExpired, Bool.and_eq_true] at hdP
      obtain ⟨hexp, hdlt⟩ := hdP
      have hdlt2 : d.createdAtMs < now - options.expiryPeriod :=
        of_decide_eq_true hdlt
      rw [imageExpired, hexp, Bool.true_and] at hkP
      have hkge : ¬ (k.createdAtMs < now - options.expiryPeriod) :=
        of_decide_eq_false hkP
      omega
    by_cases hcond : (options.hasLimit && decide (options.limit <
        ((sortByCreatedAt withScheme).filter
          (fun i => !imageExpired options now i)).length)) = true
    · rw [if_pos hcond] at hd hknot
      rcases List.mem_append.mp hd with hdexp | hdtake
      · exact hexp_le (List.mem_filter.mp hdexp).2
      · have hkNE : k ∈ (sortByCreatedAt withScheme).filter
            (fun i => !imageExpired options now i) :=
          List.mem_filter.mpr ⟨hksorted, by rw [hkP]; rfl⟩
        have hknottake : k ∉ ((sortByCreatedAt withScheme).filter
            (fun i => !imageExpired options now i)).take
              (((sortByCreatedAt withScheme).filter
                (fun i => !imageExpired options now i)).length -
                options.limit) :=
          fun hk2 => hknot (List.mem_append_right _ hk2)
        have hpwNE : ((sortByCreatedAt withScheme).filter
            (fun i => !imageExpired options now i)).Pairwise
              (fun x y => x.createdAtMs ≤ y.createdAtMs) :=
          List.Pairwise.sublist (List.filter_sublist _)
            (sortByCreatedAt_pairwise withScheme)
        exact pairwise_take_le hpwNE hdtake hkNE hknottake
    · rw [if_neg hcond, List.append_nil] at hd
      exact hexp_le (List.mem_filter.mp hd).2
  · intro now repoImages withScheme options hlim hcnt
    have hNE : ((sortByCreatedAt withScheme).filter
          (fun i => !imageExpired options now i)).length
        = (withScheme.filter (fun i => !imageExpired options now i)).length :=
      ((sortByCreatedAt_perm withScheme).filter _).length_eq
    have hXE : ((sortByCreatedAt withScheme).filter
          (imageExpired options now)).length
        = (withScheme.filter (imageExpired options now)).length :=
      ((sortByCreatedAt_perm withScheme).filter _).length_eq
    have hcond : (options.hasLimit && decide (options.limit <
        ((sortByCreatedAt withScheme).filter
          (fun i => !imageExpired options now i)).length)) = true := by
      rw [hlim, Bool.true_and, decide_eq_true_eq]
      omega
    rw [repoImagesCleanupByPolicy_deleted, if_pos hcond,
      List.length_append, List.length_take]
    omega
  · intro now repoImages withScheme options d hnopressure hd
    have hNE : ((sortByCreatedAt withScheme).filter
          (fun i => !imageExpired options now i)).length
        = (withScheme.filter (fun i => !imageExpired options now i)).length :=
      ((sortByCreatedAt_perm withScheme).filter _).length_eq
    have hcond : ¬ ((options.hasLimit && decide (options.limit <
        ((sortByCreatedAt withScheme).filter
          (fun i => !imageExpired options now i)).length)) = true) := by
      rcases hnopressure with hfalse | hle
      · rw [hfalse, Bool.false_and]
        simp
      · have hnl : ¬ (options.limit <
            ((sortByCreatedAt withScheme).filter
              (fun i => !imageExpired options now i)).length) := by omega
        rw [decide_eq_false hnl, Bool.and_false]
        simp
    rw [repoImagesCleanupByPolicy_deleted, if_neg hcond,
      List.append_nil] at hd
    have hdP : imageExpired options now d = true := (List.mem_filter.mp hd).2
    rw [imageExpired, Bool.and_eq_true] at hdP
    exact ⟨hdP.1, of_decide_eq_true hdP.2⟩
  · intro now repoImages withScheme options d hd
    rw [repoImagesCleanupByPolicy_deleted] at hd
    rcases List.mem_append.mp hd with h1 | h2
    · exact mem_sortByCreatedAt.mp (List.mem_of_mem_filter h1)
    · by_cases hcond : (options.hasLimit && decide (options.limit <
          ((sortByCreatedAt withScheme).filter
            (fun i => !imageExpired options now i)).length)) = true
      · rw [if_pos hcond] at h2
        exact mem_sortByCreatedAt.mp
          (List.mem_of_mem_filter (List.take_subset _ _ h2))
      · rw [if_neg hcond] at h2
        cases h2

/-- Claim C3, witness: the expiry conjunct applied to a single expired
git-commit image (created at 0, cutoff 100 - 10 = 90). -/
theorem retention_policy_expiry_then_limit_witness :
    gitCommitImageAt 0 "t0" ∈ [gitCommitImageAt 0 "t0"] ∧
      (gitCommitImageAt 0 "t0").createdAtMs < 100 - 10 ∧
      gitCommitImageAt 0 "t0"
        ∈ (repoImagesCleanupByPolicy 100 [gitCommitImageAt 0 "t0"]
            [gitCommitImageAt 0 "t0"]
            { hasLimit := false, limit := 0, hasExpiryPeriod := true,
              expiryPeriod := 10, schemeName := GitCommitStrategy }).2 :=
  ⟨by decide, by decide,
    retention_policy_expiry_then_limit.2.1 100 [gitCommitImageAt 0 "t0"]
      [gitCommitImageAt 0 "t0"]
      { hasLimit := false, limit := 0, hasExpiryPeriod := true,
        expiryPeriod := 10, schemeName := GitCommitStrategy }
      (gitCommitImageAt 0 "t0") (by decide) rfl (by decide)⟩

/-! ### Lemmas about the git-history-based cleanup -/

theorem lookup_mem_pairs {k : String} {v : List ImageInfo} :
    ∀ {m : List (String × List ImageInfo)}, m.lookup k = some v → (k, v) ∈ m := by
  intro m
  induction m with
  | nil => intro h; cases h
  | cons p rest ih =>
    intro h
    obtain ⟨k1, v1⟩ := p
    rw [List.lookup] at h
    split at h
    next hbeq =>
      cases h
      have hk : k = k1 := by simpa using hbeq
      rw [hk]
      exact List.mem_cons_self _ _
    next hbeq => exact List.mem_cons_of_mem _ (ih h)

theorem mem_foldl_append_lookup {x : ImageInfo}
    {sigMap : List (String × List ImageInfo)} :
    ∀ (reached : List String) (init : List ImageInfo),
      x ∈ reached.foldl
          (fun acc sig => acc ++ ((sigMap.lookup sig).getD [])) init →
      x ∈ init ∨ ∃ sig xs, sigMap.lookup sig = some xs ∧ x ∈ xs := by
  intro reached
  induction reached with
  | nil => intro init h; exact Or.inl h
  | cons s rest ih =>
    intro init h
    rw [List.foldl_cons] at h
    rcases ih _ h with hini | hex
    · rw [List.mem_append] at hini
      rcases hini with h1 | h2
      · exact Or.inl h1
      · cases hl : sigMap.lookup s with
        | none => rw [hl] at h2; cases h2
        | some xs => rw [hl] at h2; exact Or.inr ⟨s, xs, hl, h2⟩
    · exact Or.inr hex

theorem mem_exceptAllValues {x : ImageInfo} :
    ∀ (m : List (String × List ImageInfo)) (l : List ImageInfo),
      x ∈ exceptAllValues l m ↔ x ∈ l ∧ ∀ p ∈ m, x ∉ p.2 := by
  intro m
  induction m with
  | nil => intro l; simp [exceptAllValues]
  | cons p rest ih =>
    intro l
    have hstep : exceptAllValues l (p :: rest)
        = exceptAllValues (exceptRepoImageList l p.2) rest := rfl
    rw [hstep, ih, mem_exceptRepoImageList]
    constructor
    · rintro ⟨⟨hl, hnp⟩, hrest⟩
      refine ⟨hl, fun q hq => ?_⟩
      rcases List.mem_cons.mp hq with rfl | hq2
      · exact hnp
      · exact hrest q hq2
    · rintro ⟨hl, hall⟩
      exact ⟨⟨hl, hall p (List.mem_cons_self p rest)⟩,
        fun q hq => hall q (List.mem_cons_of_mem p hq)⟩

theorem not_mem_sigMapOf_values {i : ImageInfo}
    {metadata : List (String × String)} {toCleanup : List ImageInfo}
    (hnometa : ∀ p ∈ metadata, labelDefault i WerfContentSignatureLabel ≠ p.2)
    {sig : String} {xs : List ImageInfo}
    (h : (sig, xs) ∈ sigMapOf metadata toCleanup) : i ∉ xs := by
  intro hx
  rw [sigMapOf] at h
  obtain ⟨s, hs, heq⟩ := List.mem_map.mp h
  injection heq with h1 h2
  rw [← h2] at hx
  have hlabel : labelDefault i WerfContentSignatureLabel = s :=
    of_decide_eq_true (List.mem_filter.mp hx).2
  have hs2 : s ∈ metadata.map Prod.snd := List.mem_dedup.mp hs
  obtain ⟨q, hq, hq2⟩ := List.mem_map.mp hs2
  exact hnometa q hq (hq2 ▸ hlabel)

/-- Claim C4: in git-history-based cleanup, a cleanup candidate with no
related image metadata (its content-signature label matches no stored
per-commit content signature) is moved into the saved result — with the
warning emitted — and not deleted when the v1.2 flag is off, and is left
in the deletion set and not saved when the v1.2 flag is on. -/
theorem git_history_tags_without_metadata (toCleanup : List ImageInfo)
    (metadata : List (String × String)) (commitExists : String → Bool)
    (scan : List (String × List String) → List String) (i : ImageInfo)
    (hmem : i ∈ toCleanup)
    (hnometa : ∀ p ∈ metadata, labelDefault i WerfContentSignatureLabel ≠ p.2) :
    (i ∈ (repoImagesGitHistoryBasedCleanupForImage false toCleanup metadata
          commitExists scan).saved ∧
      i ∉ (repoImagesGitHistoryBasedCleanupForImage false toCleanup metadata
          commitExists scan).deleted ∧
      (repoImagesGitHistoryBasedCleanupForImage false toCleanup metadata
          commitExists scan).warnedNoMetadata = true) ∧
      (i ∈ (repoImagesGitHistoryBasedCleanupForImage true toCleanup metadata
          commitExists scan).deleted ∧
        i ∉ (repoImagesGitHistoryBasedCleanupForImage true toCleanup metadata
          commitExists scan).saved) := by
  have hwithout : i ∈ exceptAllValues toCleanup (sigMapOf metadata toCleanup) :=
    (mem_exceptAllValues _ _).mpr
      ⟨hmem, fun p hp => not_mem_sigMapOf_values hnometa hp⟩
  have hnotkeep : ∀ reached : List String,
      i ∉ reached.foldl
        (fun acc sig =>
          acc ++ (((sigMapOf metadata toCleanup).lookup sig).getD [])) [] := by
    intro reached hx
    rcases mem_foldl_append_lookup reached [] hx with h0 | ⟨sig, xs, hl, hx2⟩
    · cases h0
    · exact not_mem_sigMapOf_values hnometa (lookup_mem_pairs hl) hx2
  refine ⟨⟨?_, ?_, ?_⟩, ?_, ?_⟩
  · simp only [repoImagesGitHistoryBasedCleanupForImage, Bool.not_false,
      if_true]
    split
    · exact List.mem_append_left _ hwithout
    · exact hwithout
  · simp only [repoImagesGitHistoryBasedCleanupForImage, Bool.not_false,
      if_true]
    split
    · intro hx
      have := (mem_exceptRepoImageList.mp hx).1
      exact (mem_exceptRepoImageList.mp this).2 hwithout
    · intro hx
      exact (mem_exceptRepoImageList.mp hx).2 hwithout
  · simp only [repoImagesGitHistoryBasedCleanupForImage, Bool.not_false,
      Bool.true_and]
    cases hcase : exceptAllValues toCleanup (sigMapOf metadata toCleanup) with
    | nil => rw [hcase] at hwithout; cases hwithout
    | cons a l => rfl
  · have hfv : ∀ a b : List ImageInfo, (if false = true then a else b) = b :=
      fun a b => if_neg (by simp)
    simp only [repoImagesGitHistoryBasedCleanupForImage, Bool.not_true, hfv]
    split
    · exact mem_exceptRepoImageList.mpr ⟨hmem, hnotkeep _⟩
    · exact hmem
  · have hfv : ∀ a b : List ImageInfo, (if false = true then a else b) = b :=
      fun a b => if_neg (by simp)
    simp only [repoImagesGitHistoryBasedCleanupForImage, Bool.not_true, hfv]
    split
    · intro hx
      simp only [List.nil_append] at hx
      exact hnotkeep _ hx
    · intro hx
      cases hx

/-- Claim C4, witness: a candidate whose content-signature label matches
no stored metadata record, under metadata holding one record for another
signature, a git where every commit exists and a scan reaching every
grouped signature. -/
theorem git_history_tags_without_metadata_witness :
    sampleNoMetadataImage ∈ [sampleNoMetadataImage] ∧
      ((sampleNoMetadataImage
          ∈ (repoImagesGitHistoryBasedCleanupForImage false
              [sampleNoMetadataImage] [("c1", "sig1")] (fun _ => true)
              (fun l => l.map Prod.fst)).saved ∧
        sampleNoMetadataImage
          ∉ (repoImagesGitHistoryBasedCleanupForImage false
              [sampleNoMetadataImage] [("c1", "sig1")] (fun _ => true)
              (fun l => l.map Prod.fst)).deleted ∧
        (repoImagesGitHistoryBasedCleanupForImage false [sampleNoMetadataImage]
            [("c1", "sig1")] (fun _ => true)
            (fun l => l.map Prod.fst)).warnedNoMetadata = true) ∧
        (sampleNoMetadataImage
            ∈ (repoImagesGitHistoryBasedCleanupForImage true
                [sampleNoMetadataImage] [("c1", "sig1")] (fun _ => true)
                (fun l => l.map Prod.fst)).deleted ∧
          sampleNoMetadataImage
            ∉ (repoImagesGitHistoryBasedCleanupForImage true
                [sampleNoMetadataImage] [("c1", "sig1")] (fun _ => true)
                (fun l => l.map Prod.fst)).saved)) :=
  ⟨by decide,
    git_history_tags_without_metadata [sampleNoMetadataImage] [("c1", "sig1")]
      (fun _ => true) (fun l => l.map Prod.fst) sampleNoMetadataImage
      (by decide) (by decide)⟩

/-! ### Lemmas about the whitelist partition and the run merge -/

theorem not_isEmpty_of_mem {x : ImageInfo} {l : List ImageInfo} (h : x ∈ l) :
    (!l.isEmpty) = true := by
  cases l with
  | nil => cases h
  | cons a m => rfl

theorem whitelist_candidates_not_deployed
    {repoImages : List (String × List ImageInfo)} {deployed : List String}
    {p : String × List ImageInfo}
    (hp : p ∈ (exceptRepoImagesByWhitelist repoImages deployed).1)
    {x : ImageInfo} (hx : x ∈ p.2) :
    (x.repository ++ ":" ++ x.tag) ∉ deployed := by
  simp only [exceptRepoImagesByWhitelist, List.map_map, List.mem_map] at hp
  obtain ⟨b, -, heq⟩ := hp
  rw [← heq] at hx
  have hpred := (List.mem_filter.mp hx).2
  simpa using hpred

theorem mem_mergeExceptedRepoImages {name : String} {i : ImageInfo} :
    ∀ (excepted result : List (String × List ImageInfo)),
      ((∃ l0, (name, l0) ∈ result ∧ i ∈ l0) ∨
        (∃ le, (name, le) ∈ excepted ∧ i ∈ le)) →
      ∃ l1, (name, l1) ∈ mergeExceptedRepoImages result excepted ∧ i ∈ l1 := by
  intro excepted
  induction excepted with
  | nil =>
    intro result h
    rcases h with ⟨l0, h1, h2⟩ | ⟨le, hle, -⟩
    · exact ⟨l0, h1, h2⟩
    · cases hle
  | cons q0 rest ih =>
    intro result h
    rw [show mergeExceptedRepoImages result (q0 :: rest)
        = mergeExceptedRepoImages
            (if result.any (fun p => decide (p.1 = q0.1)) then
              result.map (fun p => if p.1 = q0.1 then (p.1, p.2 ++ q0.2) else p)
            else result ++ [q0]) rest from rfl]
    apply ih
    rcases h with ⟨l0, h1, h2⟩ | ⟨le, hle, hile⟩
    · left
      by_cases hany : result.any (fun p => decide (p.1 = q0.1)) = true
      · rw [if_pos hany]
        by_cases hn : name = q0.1
        · refine ⟨l0 ++ q0.2, ?_, List.mem_append_left _ h2⟩
          have himg : (fun p : String × List ImageInfo =>
                if p.1 = q0.1 then (p.1, p.2 ++ q0.2) else p) (name, l0)
              = (name, l0 ++ q0.2) := by
            simp [hn]
          exact himg ▸ List.mem_map_of_mem _ h1
        · refine ⟨l0, ?_, h2⟩
          have himg : (fun p : String × List ImageInfo =>
                if p.1 = q0.1 then (p.1, p.2 ++ q0.2) else p) (name, l0)
              = (name, l0) := by
            simp [hn]
          exact himg ▸ List.mem_map_of_mem _ h1
      · rw [if_neg hany]
        exact ⟨l0, List.mem_append_left _ h1, h2⟩
    · rcases List.mem_cons.mp hle with hhead | htail
      · left
        by_cases hany : result.any (fun p => decide (p.1 = q0.1)) = true
        · rw [if_pos hany]
          obtain ⟨p, hpmem, hpeq⟩ := List.any_eq_true.mp hany
          have hp1 : p.1 = q0.1 := of_decide_eq_true hpeq
          refine ⟨p.2 ++ q0.2, ?_, ?_⟩
          · have himg : (fun p : String × List ImageInfo =>
                  if p.1 = q0.1 then (p.1, p.2 ++ q0.2) else p) p
                = (p.1, p.2 ++ q0.2) := by
              simp [hp1]
            have hname : p.1 = name := by rw [hp1, ← hhead]
            rw [← hname]
            exact himg ▸ List.mem_map_of_mem _ hpmem
          · apply List.mem_append_right
            rw [← hhead]
            exact hile
        · rw [if_neg hany]
          refine ⟨le, ?_, hile⟩
          apply List.mem_append_right
          rw [hhead]
          exact List.mem_singleton.mpr rfl
      · right
        exact ⟨le, htail, hile⟩

/-- Claim C1: every image whose `Repository:Tag` string appears in the
Kubernetes probe output is excluded before the cleanup phase, never
deleted by the run (given any cleanup phase that only deletes images from
its candidate input, as both phases of the source do), and carried through
into the final result image list of the run. -/
theorem kube_used_images_never_deleted (localGitPresent : Bool)
    (repoImages : List (String × List ImageInfo)) (deployed : List String)
    (cleanupPhase : List ImageInfo → List ImageInfo × List ImageInfo)
    (hphase : ∀ (l : List ImageInfo) (x : ImageInfo),
      x ∈ (cleanupPhase l).2 → x ∈ l)
    (name : String) (lst : List ImageInfo) (i : ImageInfo)
    (hname : (name, lst) ∈ repoImages) (hi : i ∈ lst)
    (hdep : (i.repository ++ ":" ++ i.tag) ∈ deployed) :
    i ∉ (imagesCleanupRun localGitPresent false repoImages deployed
        cleanupPhase).deleted ∧
      ∃ l1, (name, l1) ∈ (imagesCleanupRun localGitPresent false repoImages
          deployed cleanupPhase).finalRepoImages ∧ i ∈ l1 := by
  cases localGitPresent with
  | false =>
    have h0 : imagesCleanupRun false false repoImages deployed cleanupPhase
        = { finalRepoImages := repoImages, deleted := [],
            skippedNoLocalGit := true } := rfl
    rw [h0]
    exact ⟨by simp, ⟨lst, hname, hi⟩⟩
  | true =>
    have hrun : imagesCleanupRun true false repoImages deployed cleanupPhase
        = { finalRepoImages := mergeExceptedRepoImages
              (((exceptRepoImagesByWhitelist repoImages deployed).1.map
                  (fun p => (p.1, cleanupPhase p.2))).map
                (fun q => (q.1, q.2.1)))
              (exceptRepoImagesByWhitelist repoImages deployed).2,
            deleted := (((exceptRepoImagesByWhitelist repoImages deployed).1.map
                (fun p => (p.1, cleanupPhase p.2))).map
              (fun q => q.2.2)).flatten,
            skippedNoLocalGit := false } := rfl
    rw [hrun]
    constructor
    · intro hx
      simp only [List.mem_flatten, List.map_map, List.mem_map] at hx
      obtain ⟨ls, ⟨p, hp, hls⟩, hx2⟩ := hx
      rw [← hls] at hx2
      have hxp : i ∈ p.2 := hphase p.2 i hx2
      exact whitelist_candidates_not_deployed hp hxp hdep
    · apply mem_mergeExceptedRepoImages
      right
      refine ⟨lst.filter
          (fun x => decide ((x.repository ++ ":" ++ x.tag) ∈ deployed)),
        ?_, List.mem_filter.mpr ⟨hi, decide_eq_true hdep⟩⟩
      have hmatched : i ∈ lst.filter
          (fun x => decide ((x.repository ++ ":" ++ x.tag) ∈ deployed)) :=
        List.mem_filter.mpr ⟨hi, decide_eq_true hdep⟩
      simp only [exceptRepoImagesByWhitelist, List.map_map, List.mem_filter,
        List.mem_map]
      exact ⟨⟨(name, lst), hname, rfl⟩, not_isEmpty_of_mem hmatched⟩

/-- Claim C1, witness: a deployed image is not deleted and survives into
the final result of a full run with a keep-everything phase. -/
theorem kube_used_images_never_deleted_witness :
    sampleDeployedImage ∉ (imagesCleanupRun true false
        [("app", [sampleDeployedImage])] ["registry.example.com/project:v1"]
        keepAllPhase).deleted ∧
      ∃ l1, ("app", l1) ∈ (imagesCleanupRun true false
          [("app", [sampleDeployedImage])] ["registry.example.com/project:v1"]
          keepAllPhase).finalRepoImages ∧ sampleDeployedImage ∈ l1 :=
  kube_used_images_never_deleted true [("app", [sampleDeployedImage])]
    ["registry.example.com/project:v1"] keepAllPhase
    (fun l x hx => by simp [keepAllPhase] at hx) "app" [sampleDeployedImage]
    sampleDeployedImage (by decide) (by decide) (by decide)

/-- Claim C9: when no local git repository is detected, the images cleanup
run deletes nothing, reports the skip, and leaves the fetched repo image
data as the manager's image list: it returns before the exclusion, policy
and deletion phases (none of their effects appear in the outcome). -/
theorem cleanup_skipped_without_local_git (withoutKube : Bool)
    (repoImages : List (String × List ImageInfo)) (deployed : List String)
    (cleanupPhase : List ImageInfo → List ImageInfo × List ImageInfo) :
    imagesCleanupRun false withoutKube repoImages deployed cleanupPhase
      = { finalRepoImages := repoImages, deleted := [],
          skippedNoLocalGit := true } := rfl

end Werf
